import Mathlib

/-!
Verification of the PyPI ecosystem adapter of `strudel.ecosystems`
(`stecosystems/pypi.py`) against its natural-language specification.

The Python code is shallowly embedded: strings are Lean `String`s
(manipulated through their underlying `List Char` so that proofs can
proceed by list induction), the filesystem and the network are passed in
as explicit parameters, and exceptions become an explicit result type.
Each embedded definition carries a reference to the source function it
translates.
-/

namespace StEco

/-! ## String primitives

Python string operations used by the source, modelled over `String.data`.
All inputs of interest are ASCII, so the ASCII whitespace set of
Python's `str.strip` suffices. -/

/-- Whitespace characters removed by Python's `str.strip()` (ASCII part). -/
def isPySpace (c : Char) : Bool :=
  c == ' ' || c == '\t' || c == '\n' || c == '\r' || c == '\x0b' || c == '\x0c'

/-- Python `s.strip()`: remove leading and trailing whitespace. -/
def strTrim (s : String) : String :=
  ⟨((s.data.dropWhile isPySpace).reverse.dropWhile isPySpace).reverse⟩

/-- Python `s[:n]`. -/
def strTake (s : String) (n : Nat) : String := ⟨s.data.take n⟩

/-- Python `s.endswith(suffix)`. -/
def strEndsWith (s e : String) : Bool := e.data.isSuffixOf s.data

/-- Python `s.startswith(p)`. -/
def strStartsWith (s p : String) : Bool := p.data.isPrefixOf s.data

/-- Python `s.rsplit("/", 1)[-1]`: the part of `s` after the last `'/'`
(all of `s` when there is no `'/'`). Used on download URLs. -/
def lastSegment (s : String) : String :=
  ⟨(s.data.reverse.takeWhile (fun c => !(c == '/'))).reverse⟩

/-- Lexicographic (code-point) strict order on char lists; this is how
Python compares strings, used by `min`/`sorted` on ISO date strings. -/
def charsLt : List Char → List Char → Bool
  | [], [] => false
  | [], _ :: _ => true
  | _ :: _, [] => false
  | c :: cs, d :: ds =>
    if c.toNat < d.toNat then true
    else if d.toNat < c.toNat then false
    else charsLt cs ds

/-- Python `s < t` on strings. -/
def strLt (s t : String) : Bool := charsLt s.data t.data

/-! ## Dependency-string splitting (`pypi.py`, `Package.dependencies`)

`dep_split` translates the inner function of `Package.dependencies`:

    def dep_split(dep):
        match = re.match("[\w_.-]+", dep)
        if not match:  # invalid dependency
            name = ""
        else:
            name = match.group(0)
        version = dep[len(name):].strip()
        return name, version

`re.match` anchors at the start, so the matched name is exactly the
longest leading run of word characters, and an empty run (no match)
yields the empty name. -/

/-- Character class `[\w_.-]` of the name regex (over ASCII inputs:
alphanumerics, underscore, dot, hyphen). -/
def isWordChar (c : Char) : Bool :=
  c.isAlphanum || c == '_' || c == '.' || c == '-'

/-- The inner `dep_split` of `Package.dependencies` (`pypi.py`). -/
def dep_split (dep : String) : String × String :=
  let name := dep.data.takeWhile isWordChar
  (⟨name⟩, strTrim ⟨dep.data.drop name.length⟩)

/-- One assignment `d[k] = v` with Python `dict` semantics: an existing
key keeps its position and gets the new value, a new key is appended. -/
def pyDictInsert (d : List (String × String)) (kv : String × String) :
    List (String × String) :=
  if d.any (fun e => e.1 == kv.1) then
    d.map (fun e => if e.1 == kv.1 then (e.1, kv.2) else e)
  else d ++ [kv]

/-- `dict(pairs)` for a list of key-value pairs (later pairs win). -/
def pyDict (pairs : List (String × String)) : List (String × String) :=
  pairs.foldl pyDictInsert []

/-- The final line of `Package.dependencies`:
`dict(dep_split(dep.strip()) for dep in deps if dep.strip())`. -/
def depsDict (deps : List String) : List (String × String) :=
  pyDict ((deps.filter (fun d => !(strTrim d == ""))).map
    (fun d => dep_split (strTrim d)))

/-! ## Artifacts and supported formats (`pypi.py`, module level) -/

/-- Keys of `SUPPORTED_FORMATS`, in dict insertion order:
zip-like formats first (`.zip`, `.whl`, `.egg` extract with `unzip`),
then the tar-based ones. -/
def SUPPORTED_FORMATS : List String :=
  [".zip", ".whl", ".egg", ".tar.gz", ".tgz", ".tar.bz2"]

/-- One file record of `info['releases'][ver]`: the fields the source
reads are `packagetype`, `url` and `upload_time`. -/
structure Artifact where
  packagetype : String
  url : String
  upload_time : String
deriving DecidableEq

/-- `any(info['url'].endswith(ext) for ext in SUPPORTED_FORMATS)`. -/
def supportedUrl (url : String) : Bool :=
  SUPPORTED_FORMATS.any (fun ext => strEndsWith url ext)

/-- The ranked distribution-kind tuple iterated by `Package.download_url`. -/
def PKGTYPES : List String :=
  ["bdist_wheel", "bdist_egg", "sdist", "bdist_rpm", "bdist_deb",
   "bdist_wininst"]

/-- Inner loop of `Package.download_url`: first artifact of the given
`packagetype` whose URL ends in a supported extension. -/
def findByType : List Artifact → String → Option String
  | [], _ => none
  | a :: rest, t =>
    if a.packagetype == t && supportedUrl a.url then some a.url
    else findByType rest t

/-- Outer loop of `Package.download_url` over the ranked kind list. -/
def downloadUrlAux (arts : List Artifact) : List String → Option String
  | [] => none
  | t :: ts =>
    match findByType arts t with
    | some u => some u
    | none => downloadUrlAux arts ts

/-- `Package.download_url(ver)` (`pypi.py`), as a function of the
artifact list `info['releases'][ver]`. Returns `none` when no
downloadable file in a supported format exists. -/
def download_url (arts : List Artifact) : Option String :=
  downloadUrlAux arts PKGTYPES

/-- Rank of a distribution kind: its position in `PKGTYPES`. -/
def rank (t : String) : Nat := PKGTYPES.findIdx (fun x => x == t)

/-! ## Release catalog (`pypi.py`, `Package.releases`) -/

/-- `min(f['upload_time'][:10] for f in files)` — the earliest
(lexicographically smallest) truncated upload date; only applied to
non-empty file lists. -/
def minDate (files : List Artifact) : String :=
  match files.map (fun f => strTake f.upload_time 10) with
  | [] => ""
  | d :: ds => ds.foldl (fun a b => if strLt b a then b else a) d

/-- Stable insertion of one release into a date-sorted list; an element
is placed before the first strictly later one, keeping equal dates in
their original order. Models the stable `sorted(..., key=lambda r: r[1])`. -/
def insertByDate (x : String × String) :
    List (String × String) → List (String × String)
  | [] => [x]
  | y :: ys => if strLt y.2 x.2 then y :: insertByDate x ys else x :: y :: ys

/-- Stable sort by date (second component), ascending. -/
def sortByDate : List (String × String) → List (String × String)
  | [] => []
  | x :: xs => insertByDate x (sortByDate xs)

/-- Split a char list at dots, like Python `str.split(".")`. -/
def dotSplit : List Char → List (List Char)
  | [] => [[]]
  | c :: rest =>
    if c == '.' then [] :: dotSplit rest
    else
      match dotSplit rest with
      | p :: ps => (c :: p) :: ps
      | [] => [[c]]

/-- The stable-release filter `re.match("^\d+(\.\d+)*$", label)`: the
label is one or more dot-separated non-empty digit runs. -/
def isStableLabel (label : String) : Bool :=
  (dotSplit label.data).all (fun p => !p.isEmpty && p.all Char.isDigit)

/-- Backport-filtering scan of `Package.releases`: keep a release iff no
release was kept yet or it compares `>= 0` against the last kept label.
`last` holds the label of the last kept release. -/
def backportScanAux (cmp : String → String → Int) :
    Option String → List (String × String) → List (String × String)
  | _, [] => []
  | none, r :: rest => r :: backportScanAux cmp (some r.1) rest
  | some prev, r :: rest =>
    if cmp r.1 prev ≥ 0 then r :: backportScanAux cmp (some r.1) rest
    else backportScanAux cmp (some prev) rest

/-- `Package.releases(include_unstable, include_backports)` (`pypi.py`),
as a function of the raw `info['releases']` mapping (label, file list).
`cmp` is `stutils.versions.compare`, the numeric semantic-version
comparison from the external `stutils` library, passed as a parameter
since that library is an external collaborator of this repository. -/
def releases (cmp : String → String → Int)
    (raw : List (String × List Artifact))
    (include_unstable include_backports : Bool) : List (String × String) :=
  let rels := sortByDate
    ((raw.filter (fun p => !p.2.isEmpty)).map (fun p => (p.1, minDate p.2)))
  let rels := if include_unstable then rels
    else rels.filter (fun r => isStableLabel r.1)
  if !include_backports && !rels.isEmpty then backportScanAux cmp none rels
  else rels

/-! ## Metadata locator (`pypi.py`, `Package._info_path`) -/

/-- Collapse every run of separator characters into a single `'_'`;
`prevSep` records whether the previous character was a separator. -/
def collapseRunsAux (isSep : Char → Bool) : Bool → List Char → List Char
  | _, [] => []
  | prevSep, c :: rest =>
    if isSep c then
      if prevSep then collapseRunsAux isSep true rest
      else '_' :: collapseRunsAux isSep true rest
    else c :: collapseRunsAux isSep false rest

/-- `re.sub("[_-]+", "_", name)` of `Package._info_path`: runs of
underscores and hyphens (only those two characters) become one `'_'`. -/
def normalizeName (s : String) : String :=
  ⟨collapseRunsAux (fun c => c == '_' || c == '-') false s.data⟩

/-- Modelled from the spec: the spec's name normalization for the
metadata locator collapses runs of hyphen, underscore AND dot into a
single underscore ("packaging-spec equivalence rule"); this definition
follows the spec's words, for comparison with `normalizeName` above. -/
def specNormalizeName (s : String) : String :=
  ⟨collapseRunsAux (fun c => c == '_' || c == '-' || c == '.') false s.data⟩

/-- The probe loop of `Package._info_path`: join each candidate with the
extracted directory, return the first that is a directory. `isDir`
models `os.path.isdir`. -/
def probeFirst (isDir : String → Bool) (dir : String) :
    List String → Option String
  | [] => none
  | p :: ps =>
    let path := dir ++ "/" ++ p
    if isDir path then some path else probeFirst isDir dir ps

/-- `Package._info_path(ver)` (`pypi.py`), as a function of the
filesystem predicate, the extracted tree root, the canonical name and
the version: probe `{name}-{ver}.dist-info`, `{name}.egg-info`,
`EGG-INFO` in that order; `none` when no probe is a directory. -/
def infoPath (isDir : String → Bool) (extractDir name ver : String) :
    Option String :=
  let cname := normalizeName name
  probeFirst isDir extractDir
    [cname ++ "-" ++ ver ++ ".dist-info", cname ++ ".egg-info", "EGG-INFO"]

/-- Modelled from the spec: `infoPath` as the spec describes it, using
the spec's dot-collapsing normalization instead of the source's. -/
def specInfoPath (isDir : String → Bool) (extractDir name ver : String) :
    Option String :=
  let cname := specNormalizeName name
  probeFirst isDir extractDir
    [cname ++ "-" ++ ver ++ ".dist-info", cname ++ ".egg-info", "EGG-INFO"]

/-! ## Dependency parsing for built distributions
(`pypi.py`, `Package.dependencies`, `.dist-info` branch) -/

/-- One entry of `run_requires` in `metadata.json`: whether the entry
carries an `extra` key, whether it carries an `environment` key, and its
`requires` list. -/
structure RunRequire where
  extra : Bool
  environment : Bool
  requires : List String
deriving DecidableEq

/-- Parsed `metadata.json` content: its `run_requires` list
(`info.get('run_requires', [])`). -/
structure MetadataJson where
  run_requires : List RunRequire
deriving DecidableEq

/-- The collection loop of the `.dist-info` branch:

    deps = []
    for dep in info.get('run_requires', []):
        if 'extra' not in dep and 'environment' not in dep:
            deps.extend(dep['requires'])
-/
def collectRunRequires (entries : List RunRequire) : List String :=
  entries.foldl
    (fun deps dep =>
      if !dep.extra && !dep.environment then deps ++ dep.requires else deps)
    []

/-- Contents of a `.dist-info` metadata location: `metadataJson` is the
parsed `metadata.json` (`none` when that file does not exist), and
`metadataFile` holds the lines of the flat `METADATA` text manifest
(`none` when absent). The source never opens `METADATA`; the field is
here so that the spec-claimed fallback can be stated against it. -/
structure DistInfoDir where
  metadataJson : Option MetadataJson
  metadataFile : Option (List String)

/-- The `.dist-info` branch of `Package.dependencies` (`pypi.py`):
`if not os.path.isfile(fname): return default` (the empty mapping) when
`metadata.json` is missing, else the unconditional `run_requires`
entries fed through `dep_split`. -/
def dependenciesDistInfo (d : DistInfoDir) : List (String × String) :=
  match d.metadataJson with
  | none => []
  | some info => depsDict (collectRunRequires info.run_requires)

/-- Strip one pair of enclosing parentheses, if present. -/
def stripParens (s : String) : String :=
  match s.data with
  | '(' :: rest =>
    if rest.getLast? == some ')' then ⟨rest.dropLast⟩ else s
  | _ => s

/-- The requirement field prefix of the flat `METADATA` manifest. -/
def requiresDistField : String := "Requires-Dist: "

/-- Modelled from the spec: the spec's `.dist-info` dependency parsing,
which falls back to the flat `METADATA` manifest when `metadata.json`
does not exist — "extracting lines with a fixed field prefix, splitting
each into name + raw constraint, stripping any enclosing parentheses
from the constraint". The source has no such fallback; this definition
follows the spec's words, for comparison with `dependenciesDistInfo`. -/
def specDistInfoDependencies (d : DistInfoDir) : List (String × String) :=
  match d.metadataJson with
  | some info => depsDict (collectRunRequires info.run_requires)
  | none =>
    match d.metadataFile with
    | none => []
    | some lines =>
      pyDict ((lines.filter (fun l => strStartsWith l requiresDistField)).map
        (fun l =>
          let dep := strTrim ⟨l.data.drop requiresDistField.data.length⟩
          let nv := dep_split dep
          (nv.1, stripParens nv.2)))

/-! ## Download and extraction (`pypi.py`, `Package.download`) -/

/-- `PYPI_SAVE_PATH` with its default configuration value. -/
def PYPI_SAVE_PATH : String := "/tmp/pypi"

/-- The extension-detection loop of `Package.download`: first key of
`SUPPORTED_FORMATS` (in dict order) that `fname` ends with. -/
def findExtensionAux (fname : String) : List String → Option String
  | [] => none
  | e :: es => if strEndsWith fname e then some e else findExtensionAux fname es

/-- `extension` as computed in `Package.download` (empty ⇒ `ValueError`). -/
def findExtension (fname : String) : Option String :=
  findExtensionAux fname SUPPORTED_FORMATS

/-- The single-directory detection loop of the `.zip` edge case in
`Package.download`: `acc` is `single_dir`; a second directory entry
resets it to `None` and breaks. -/
def singleDirAux (isDir : String → Bool) (dir : String) :
    Option String → List String → Option String
  | acc, [] => acc
  | acc, e :: rest =>
    let path := dir ++ "/" ++ e
    if isDir path then
      match acc with
      | none => singleDirAux isDir dir (some path) rest
      | some _ => none
    else singleDirAux isDir dir acc rest

/-- Environment of one `Package.download(ver)` call: the release's
artifact list, the pre-existing state of the extraction folder, the
directory listing after extraction, the directory predicate for the
post-extraction entries, and whether `urlretrieve` succeeds (`false`
models the `IOError` of a missing remote file). -/
structure DownloadEnv where
  arts : List Artifact
  extractDirIsDir : Bool
  hasExtractedSubdir : Bool
  entriesAfterExtract : List String
  isDirAfter : String → Bool
  fetchOk : Bool

/-- Result of `Package.download`: a normal return (the extracted root or
`None`), or the `ValueError("Unexpected archive format: ...")` raise. -/
inductive DownloadResult where
  | ok (dir : Option String)
  | unexpectedFormat (fname : String)
deriving DecidableEq

/-- `Package.download(ver)` (`pypi.py`). Control flow in source order:
no downloadable URL ⇒ `none`; already-extracted folder ⇒ its path;
failed retrieval ⇒ `none`; unrecognized extension ⇒ `ValueError`;
otherwise extract and, for URLs ending in `.zip` only, collapse a single
inner directory into the effective root. -/
def download (env : DownloadEnv) (name ver : String) : DownloadResult :=
  match download_url env.arts with
  | none => .ok none
  | some url =>
    let extractDir := PYPI_SAVE_PATH ++ "/" ++ name ++ "-" ++ ver
    if env.extractDirIsDir && env.hasExtractedSubdir then .ok (some extractDir)
    else
      let fname := extractDir ++ "/" ++ lastSegment url
      if !env.fetchOk then .ok none
      else
        match findExtension fname with
        | none => .unexpectedFormat fname
        | some _ =>
          let finalDir :=
            if strEndsWith url ".zip" then
              match singleDirAux env.isDirAfter extractDir none
                  env.entriesAfterExtract with
              | some d => d
              | none => extractDir
            else extractDir
          .ok (some finalDir)

/-! ## Harvesting scheduler (`pypi.py`, `dependencies()`) -/

/-- One row of the resumable cache (the columns of a harvest record
besides its `(name, version)` key). -/
structure HarvestRow where
  date : String
  deps : String
  raw_dependencies : String
deriving DecidableEq

/-- The in-memory cache `deps`, keyed by `(name, version)`; kept as an
insertion-ordered association list. -/
abbrev Cache := List ((String × String) × HarvestRow)

/-- `(package_name, version) in deps`. -/
def cacheHas (c : Cache) (k : String × String) : Bool :=
  c.any (fun e => decide (e.1 = k))

/-- The registry as seen by `dependencies()`: for each package name, its
`p.releases(True, True)` list of (version, release date). -/
abbrev Registry := List (String × List (String × String))

/-- Per-package inner loop of `dependencies()`: for each release, skip
when the key is already cached (logged as "cached"), otherwise submit
the unit of work and merge its result. `work` is the worker body `do`
(whose result is keyed back by the same name and version); the state is
the cache plus the list of submitted keys. -/
def harvestPkg (work : String → String → String → HarvestRow)
    (acc : Cache × List (String × String)) (name : String)
    (rels : List (String × String)) : Cache × List (String × String) :=
  rels.foldl
    (fun acc rel =>
      let key := (name, rel.1)
      if cacheHas acc.1 key then acc
      else (acc.1 ++ [(key, work name rel.1 rel.2)], acc.2 ++ [key]))
    acc

/-- One harvesting pass of `dependencies()` (`pypi.py`): starting from
the cache loaded from durable storage, walk the registry, submitting
work only for uncached (name, version) pairs. Returns the final cache
and the submitted keys. Worker completions are merged in submission
order; the merge is order-independent because each key is submitted at
most once and written with a value determined by `work`. -/
def harvest (work : String → String → String → HarvestRow)
    (cache : Cache) (reg : Registry) : Cache × List (String × String) :=
  reg.foldl (fun acc pkg => harvestPkg work acc pkg.1 pkg.2) (cache, [])

/-! ## Lemmas about the backport-filtering scan -/

/-- The scan keeps only elements comparing `≥ 0` against the previously
kept label: its output is a chain under that comparison, and when a last
kept label is present, the first kept element compares `≥ 0` to it. -/
theorem backportScanAux_chain (cmp : String → String → Int) :
    ∀ (l : List (String × String)) (last : Option String),
      List.Chain' (fun a b : String × String => cmp b.1 a.1 ≥ 0)
        (backportScanAux cmp last l) ∧
      ∀ p h, last = some p →
        (backportScanAux cmp last l).head? = some h → cmp h.1 p ≥ 0 := by
  intro l
  induction l with
  | nil =>
    intro last
    refine ⟨by simp [backportScanAux], ?_⟩
    intro p h _ hh
    simp [backportScanAux] at hh
  | cons r rest ih =>
    intro last
    match last with
    | none =>
      refine ⟨?_, ?_⟩
      · show List.Chain' _ (r :: backportScanAux cmp (some r.1) rest)
        rw [List.chain'_cons']
        refine ⟨?_, (ih (some r.1)).1⟩
        intro y hy
        exact (ih (some r.1)).2 r.1 y rfl (Option.mem_def.1 hy)
      · intro p h hp
        cases hp
    | some prev =>
      by_cases hc : cmp r.1 prev ≥ 0
      · have hscan : backportScanAux cmp (some prev) (r :: rest)
            = r :: backportScanAux cmp (some r.1) rest := by
          simp [backportScanAux, hc]
        refine ⟨?_, ?_⟩
        · rw [hscan, List.chain'_cons']
          refine ⟨?_, (ih (some r.1)).1⟩
          intro y hy
          exact (ih (some r.1)).2 r.1 y rfl (Option.mem_def.1 hy)
        · intro p h hp hh
          rw [hscan] at hh
          cases hp
          cases hh
          exact hc
      · have hscan : backportScanAux cmp (some prev) (r :: rest)
            = backportScanAux cmp (some prev) rest := by
          simp [backportScanAux, hc]
        refine ⟨?_, ?_⟩
        · rw [hscan]; exact (ih (some prev)).1
        · intro p h hp hh
          rw [hscan] at hh
          exact (ih (some prev)).2 p h hp hh

/-- Claim C1: for every raw release mapping and `include_backports =
false`, the version-label sequence returned by `Package.releases` is
non-decreasing under the version comparison: each kept label compares
`≥ 0` against the previously kept label, for any comparison function
(in particular for `stutils.versions.compare`) and regardless of the
chronological order of the input releases. -/
theorem releases_no_backports_monotone (cmp : String → String → Int)
    (raw : List (String × List Artifact)) (include_unstable : Bool) :
    List.Chain' (fun a b : String × String => cmp b.1 a.1 ≥ 0)
      (releases cmp raw include_unstable false) := by
  have main : ∀ l : List (String × String),
      List.Chain' (fun a b : String × String => cmp b.1 a.1 ≥ 0)
        (if !l.isEmpty then backportScanAux cmp none l else l) := by
    intro l
    by_cases he : l.isEmpty
    · rw [List.isEmpty_iff] at he
      subst he
      simp
    · simp only [he, Bool.not_false, if_true]
      · exact (backportScanAux_chain cmp l none).1
  unfold releases
  simp only [Bool.not_false, Bool.true_and]
  exact main _

/-! ## Lemmas about `dep_split` -/

/-- Every char kept by `takeWhile` satisfies the predicate. -/
theorem takeWhile_all {p : Char → Bool} :
    ∀ l : List Char, ∀ c ∈ l.takeWhile p, p c = true := by
  intro l c hc
  exact List.mem_takeWhile_imp hc

/-- The head of `dropWhile` (when present) fails the predicate. -/
theorem dropWhile_head {p : Char → Bool} :
    ∀ (l : List Char) (c : Char),
      (l.dropWhile p).head? = some c → p c = false := by
  intro l
  induction l with
  | nil => intro c h; simp [List.dropWhile] at h
  | cons a rest ih =>
    intro c h
    rw [List.dropWhile_cons] at h
    by_cases ha : p a
    · rw [if_pos ha] at h
      exact ih c h
    · rw [if_neg ha] at h
      cases h
      exact Bool.not_eq_true _ ▸ Bool.of_not_eq_true ha

/-- Dropping as many elements as `takeWhile` keeps is `dropWhile`. -/
theorem drop_length_takeWhile {p : Char → Bool} :
    ∀ l : List Char, l.drop (l.takeWhile p).length = l.dropWhile p := by
  intro l
  induction l with
  | nil => rfl
  | cons a rest ih =>
    rw [List.takeWhile_cons, List.dropWhile_cons]
    by_cases ha : p a
    · rw [if_pos ha, if_pos ha, List.length_cons, List.drop_succ_cons]
      exact ih
    · rw [if_neg ha, if_neg ha]
      rfl

/-- Claim C7 (amended): the splitter takes as the dependency name the
longest leading run of word/dot/hyphen/underscore characters (the name
consists of word characters, is a prefix of the input, and the next
character, if any, is not a word character) and as the constraint the
remaining text with surrounding whitespace trimmed; a string with no
matching leading name is NOT discarded — it still contributes its entry
(with empty name) to the resulting dependency mapping. -/
theorem dep_split_spec (dep : String) :
    (∃ rest : List Char,
      dep.data = (dep_split dep).1.data ++ rest ∧
      (∀ c ∈ (dep_split dep).1.data, isWordChar c = true) ∧
      (∀ c, rest.head? = some c → isWordChar c = false) ∧
      (dep_split dep).2 = strTrim ⟨rest⟩) ∧
    (¬ strTrim dep = "" → depsDict [dep] = [dep_split (strTrim dep)]) := by
  constructor
  · refine ⟨dep.data.dropWhile isWordChar, ?_, ?_, ?_, ?_⟩
    · exact (List.takeWhile_append_dropWhile isWordChar dep.data).symm
    · exact takeWhile_all dep.data
    · exact dropWhile_head dep.data
    · show strTrim ⟨dep.data.drop (dep.data.takeWhile isWordChar).length⟩ = _
      rw [drop_length_takeWhile]
  · intro h
    have hne : (strTrim dep == "") = false := by
      rw [beq_eq_false_iff_ne]
      exact h
    simp [depsDict, pyDict, pyDictInsert, hne]

/-- Witness for claim C7, at the dependency string `"scipy (>=0.9)"`. -/
theorem dep_split_spec_witness :
    (∃ rest : List Char,
      ("scipy (>=0.9)" : String).data
          = (dep_split "scipy (>=0.9)").1.data ++ rest ∧
      (∀ c ∈ (dep_split "scipy (>=0.9)").1.data, isWordChar c = true) ∧
      (∀ c, rest.head? = some c → isWordChar c = false) ∧
      (dep_split "scipy (>=0.9)").2 = strTrim ⟨rest⟩) ∧
    depsDict ["scipy (>=0.9)"] = [dep_split (strTrim "scipy (>=0.9)")] :=
  ⟨(dep_split_spec "scipy (>=0.9)").1,
   (dep_split_spec "scipy (>=0.9)").2 (by decide)⟩

/-- Counterexample for claim C7 as stated: the dependency string
`"(>=1.0)"` has no matching leading name, yet it is not discarded — it
contributes the entry `("", "(>=1.0)")` to the mapping. -/
theorem dep_split_empty_name_not_discarded_cex :
    depsDict ["(>=1.0)"] = [("", "(>=1.0)")] ∧ depsDict ["(>=1.0)"] ≠ [] :=
  ⟨rfl, by decide⟩

/-- Counterexample for claim C3 as stated: parsing the dependency line
`"numpy (>=1.9.0)"` does not yield the mapping sending `"numpy"` to
`">=1.9.0"` — the enclosing parentheses are not stripped. -/
theorem dep_split_keeps_parens_cex :
    depsDict ["numpy (>=1.9.0)"] ≠ [("numpy", ">=1.9.0")] := by decide

/-- Claim C3 (amended): parsing the dependency line `"numpy (>=1.9.0)"`
yields the mapping sending `"numpy"` to `"(>=1.9.0)"` — the splitter
trims surrounding whitespace from the constraint but keeps any enclosing
parentheses. -/
theorem dep_split_numpy_amended :
    depsDict ["numpy (>=1.9.0)"] = [("numpy", "(>=1.9.0)")] := rfl

/-! ## Lemmas about `download_url` -/

/-- A hit of the inner loop is an artifact of the requested kind, with a
supported extension, from the list. -/
theorem findByType_eq_some {arts : List Artifact} {t u : String}
    (h : findByType arts t = some u) :
    ∃ b ∈ arts, b.packagetype = t ∧ supportedUrl b.url = true ∧ b.url = u := by
  induction arts with
  | nil => simp [findByType] at h
  | cons a rest ih =>
    rw [findByType] at h
    by_cases hc : (a.packagetype == t && supportedUrl a.url) = true
    · rw [if_pos hc] at h
      cases h
      have hc' := Bool.and_eq_true_iff.1 hc
      exact ⟨a, List.mem_cons_self a rest, beq_iff_eq.1 hc'.1, hc'.2, rfl⟩
    · rw [if_neg hc] at h
      obtain ⟨b, hb, h1, h2, h3⟩ := ih h
      exact ⟨b, List.mem_cons_of_mem a hb, h1, h2, h3⟩

/-- When the inner loop misses, no artifact of that kind in the list has
a supported extension. -/
theorem findByType_eq_none {arts : List Artifact} {t : String}
    (h : findByType arts t = none) :
    ∀ a ∈ arts, a.packagetype = t → supportedUrl a.url = false := by
  induction arts with
  | nil => intro a ha; cases ha
  | cons a rest ih =>
    rw [findByType] at h
    by_cases hc : (a.packagetype == t && supportedUrl a.url) = true
    · rw [if_pos hc] at h; cases h
    · rw [if_neg hc] at h
      intro x hx hxt
      rcases List.mem_cons.1 hx with rfl | hx'
      · rcases Bool.and_eq_false_iff.1 (Bool.eq_false_iff.2 hc) with h1 | h2
        · exact absurd hxt (beq_eq_false_iff_ne.1 h1)
        · exact h2
      · exact ih h x hx' hxt

/-- The outer loop of `Package.download_url`: whenever some artifact has
a supported extension and a kind in the remaining ranked list, the loop
returns the URL of an artifact whose kind-rank (position in that list)
is minimal among all such artifacts. -/
theorem downloadUrlAux_spec (arts : List Artifact) :
    ∀ ts : List String,
      (∃ a ∈ arts, supportedUrl a.url = true ∧ a.packagetype ∈ ts) →
      ∃ u b, downloadUrlAux arts ts = some u ∧ b ∈ arts ∧ b.url = u ∧
        supportedUrl b.url = true ∧ b.packagetype ∈ ts ∧
        ∀ a ∈ arts, supportedUrl a.url = true → a.packagetype ∈ ts →
          ts.findIdx (fun x => x == b.packagetype)
            ≤ ts.findIdx (fun x => x == a.packagetype) := by
  intro ts
  induction ts with
  | nil =>
    rintro ⟨a, -, -, hmem⟩
    cases hmem
  | cons t ts ih =>
    rintro ⟨a, ha, hsup, hmem⟩
    cases hft : findByType arts t with
    | some u =>
      obtain ⟨b, hb, hbt, hbsup, hbu⟩ := findByType_eq_some hft
      refine ⟨u, b, ?_, hb, hbu, hbsup, ?_, ?_⟩
      · rw [downloadUrlAux, hft]
      · rw [hbt]; exact List.mem_cons_self t ts
      · intro a' _ _ _
        have hpt : (t == b.packagetype) = true := by
          rw [hbt]; exact beq_self_eq_true t
        rw [List.findIdx_cons]
        simp only [hpt, cond_true]
        exact Nat.zero_le _
    | none =>
      have hnone := findByType_eq_none hft
      have hmem' : a.packagetype ∈ ts := by
        rcases List.mem_cons.1 hmem with h | h
        · exact absurd (hnone a ha h) (by simp [hsup])
        · exact h
      obtain ⟨u, b, hdl, hb, hbu, hbsup, hbmem, hbmin⟩ :=
        ih ⟨a, ha, hsup, hmem'⟩
      have hbt : (t == b.packagetype) = false := by
        simp only [beq_eq_false_iff_ne, ne_eq]
        intro ht
        exact absurd (hnone b hb ht.symm) (by simp [hbsup])
      refine ⟨u, b, ?_, hb, hbu, hbsup, List.mem_cons_of_mem t hbmem, ?_⟩
      · rw [downloadUrlAux, hft]
        exact hdl
      · intro a' ha' hsup' hmem''
        have hat : (t == a'.packagetype) = false := by
          simp only [beq_eq_false_iff_ne, ne_eq]
          intro ht
          exact absurd (hnone a' ha' ht.symm) (by simp [hsup'])
        have hmem''' : a'.packagetype ∈ ts := by
          rcases List.mem_cons.1 hmem'' with h | h
          · exact absurd (hnone a' ha' h) (by simp [hsup'])
          · exact h
        rw [List.findIdx_cons, List.findIdx_cons]
        simp only [hbt, hat, cond_false]
        exact Nat.succ_le_succ (hbmin a' ha' hsup' hmem''')

/-- Claim C2: when some artifact of the release has a supported
(distribution kind, extension) combination, `Package.download_url`
returns an artifact URL, and the returned URL belongs to an artifact
whose distribution-kind rank is minimal among all artifacts with a
supported combination — a lower-ranked kind is never chosen while a
higher-ranked kind with a supported extension exists. -/
theorem download_url_best (arts : List Artifact)
    (h : ∃ a ∈ arts, supportedUrl a.url = true ∧ a.packagetype ∈ PKGTYPES) :
    ∃ u b, download_url arts = some u ∧ b ∈ arts ∧ b.url = u ∧
      supportedUrl b.url = true ∧ b.packagetype ∈ PKGTYPES ∧
      ∀ a ∈ arts, supportedUrl a.url = true → a.packagetype ∈ PKGTYPES →
        rank b.packagetype ≤ rank a.packagetype :=
  downloadUrlAux_spec arts PKGTYPES h

/-- Artifact list for the claim C2 witness: a source distribution listed
before a wheel. -/
def c2Arts : List Artifact :=
  [⟨"sdist", "https://files/p-1.0.tar.gz", "2020-01-01"⟩,
   ⟨"bdist_wheel", "https://files/p-1.0-py3-none-any.whl", "2020-01-01"⟩]

/-- Witness for claim C2: on `c2Arts` the hypothesis holds and the
conclusion is produced by the theorem (the wheel is preferred). -/
theorem download_url_best_witness :
    ∃ u b, download_url c2Arts = some u ∧ b ∈ c2Arts ∧ b.url = u ∧
      supportedUrl b.url = true ∧ b.packagetype ∈ PKGTYPES ∧
      ∀ a ∈ c2Arts, supportedUrl a.url = true → a.packagetype ∈ PKGTYPES →
        rank b.packagetype ≤ rank a.packagetype :=
  download_url_best c2Arts
    ⟨⟨"bdist_wheel", "https://files/p-1.0-py3-none-any.whl", "2020-01-01"⟩,
     by decide, by decide, by decide⟩

/-! ## Lemmas about the `.dist-info` dependency branch -/

/-- The collection fold, for an arbitrary accumulator. -/
theorem collectRunRequires_aux (entries : List RunRequire) :
    ∀ acc : List String,
      entries.foldl
        (fun deps dep =>
          if !dep.extra && !dep.environment then deps ++ dep.requires
          else deps) acc
      = acc ++ ((entries.filter
          (fun e => !e.extra && !e.environment)).map
          (fun e => e.requires)).flatten := by
  induction entries with
  | nil => intro acc; simp
  | cons e rest ih =>
    intro acc
    rw [List.foldl_cons, List.filter_cons]
    by_cases he : (!e.extra && !e.environment) = true
    · rw [if_pos he, if_pos he, ih, List.map_cons, List.flatten_cons,
        List.append_assoc]
    · rw [if_neg he, if_neg he, ih]

/-- Claim C4 (amended): for a metadata location ending in `.dist-info`,
`Package.dependencies` parses the structured JSON manifest
`metadata.json` when it exists, keeping exactly the requirements of the
`run_requires` entries not tagged with an environment marker or an
extras name; when `metadata.json` does not exist it returns the empty
mapping — the flat text manifest `METADATA` is never consulted. -/
theorem distinfo_dependencies_characterization (d : DistInfoDir) :
    dependenciesDistInfo d =
      match d.metadataJson with
      | none => []
      | some info =>
        depsDict (((info.run_requires.filter
          (fun e => !e.extra && !e.environment)).map
          (fun e => e.requires)).flatten) := by
  cases hj : d.metadataJson with
  | none => simp [dependenciesDistInfo, hj]
  | some info =>
    simp only [dependenciesDistInfo, hj]
    rw [collectRunRequires, collectRunRequires_aux, List.nil_append]

/-- Concrete `.dist-info` directory for the claim C4 counterexample: no
`metadata.json`, but a flat `METADATA` manifest with one requirement. -/
def c4Dir : DistInfoDir :=
  ⟨none, some ["Requires-Dist: numpy (>=1.9.0)"]⟩

/-- Counterexample for claim C4 as stated: with `metadata.json` absent
the source returns the empty mapping and ignores the `METADATA` flat
manifest, while the spec's claimed fallback would parse it. -/
theorem distinfo_no_metadata_fallback_cex :
    dependenciesDistInfo c4Dir = [] ∧
    specDistInfoDependencies c4Dir = [("numpy", ">=1.9.0")] ∧
    ¬ dependenciesDistInfo c4Dir = specDistInfoDependencies c4Dir :=
  ⟨rfl, rfl, by decide⟩

/-! ## Lemmas about the metadata locator -/

/-- Claim C5 (amended): the metadata locator first normalizes the
canonical name by collapsing every run of hyphen/underscore characters
(but not dots) into a single underscore, then probes exactly the three
directories `{name}-{version}.dist-info`, `{name}.egg-info`, `EGG-INFO`
in that order inside the extracted tree, returns the first that exists
as a directory, and returns `none` (no exception) when none exists. -/
theorem infoPath_probe_order (isDir : String → Bool)
    (extractDir name ver : String) :
    (isDir (extractDir ++ "/"
        ++ (normalizeName name ++ "-" ++ ver ++ ".dist-info")) = true →
      infoPath isDir extractDir name ver
        = some (extractDir ++ "/"
            ++ (normalizeName name ++ "-" ++ ver ++ ".dist-info"))) ∧
    (isDir (extractDir ++ "/"
        ++ (normalizeName name ++ "-" ++ ver ++ ".dist-info")) = false →
      isDir (extractDir ++ "/" ++ (normalizeName name ++ ".egg-info"))
          = true →
      infoPath isDir extractDir name ver
        = some (extractDir ++ "/"
            ++ (normalizeName name ++ ".egg-info"))) ∧
    (isDir (extractDir ++ "/"
        ++ (normalizeName name ++ "-" ++ ver ++ ".dist-info")) = false →
      isDir (extractDir ++ "/" ++ (normalizeName name ++ ".egg-info"))
          = false →
      isDir (extractDir ++ "/" ++ "EGG-INFO") = true →
      infoPath isDir extractDir name ver
        = some (extractDir ++ "/" ++ "EGG-INFO")) ∧
    (isDir (extractDir ++ "/"
        ++ (normalizeName name ++ "-" ++ ver ++ ".dist-info")) = false →
      isDir (extractDir ++ "/" ++ (normalizeName name ++ ".egg-info"))
          = false →
      isDir (extractDir ++ "/" ++ "EGG-INFO") = false →
      infoPath isDir extractDir name ver = none) ∧
    normalizeName "a--b_c" = "a_b_c" ∧ normalizeName "a.b" = "a.b" := by
  refine ⟨?_, ?_, ?_, ?_, by decide, by decide⟩
  · intro h1
    simp [infoPath, probeFirst, h1]
  · intro h1 h2
    simp [infoPath, probeFirst, h1, h2]
  · intro h1 h2 h3
    simp [infoPath, probeFirst, h1, h2, h3]
  · intro h1 h2 h3
    simp [infoPath, probeFirst, h1, h2, h3]

/-- Witness for claim C5 at a concrete filesystem where only the
first probe (with the hyphen collapsed to an underscore) exists. -/
theorem infoPath_probe_order_witness :
    infoPath (fun p => p == "t/pkg_a-1.0.dist-info") "t" "pkg-a" "1.0"
      = some "t/pkg_a-1.0.dist-info" :=
  (infoPath_probe_order (fun p => p == "t/pkg_a-1.0.dist-info")
    "t" "pkg-a" "1.0").1 (by decide)

/-- Counterexample for claim C5 as stated: for the canonical name
`"a.b"` the source does not collapse the dot, so a tree holding only the
directory that the spec's normalization would probe is not found. -/
theorem infoPath_dot_not_collapsed_cex :
    infoPath (fun p => p == "t/a_b-1.dist-info") "t" "a.b" "1" = none ∧
    specInfoPath (fun p => p == "t/a_b-1.dist-info") "t" "a.b" "1"
      = some "t/a_b-1.dist-info" ∧
    ¬ infoPath (fun p => p == "t/a_b-1.dist-info") "t" "a.b" "1"
      = specInfoPath (fun p => p == "t/a_b-1.dist-info") "t" "a.b" "1" :=
  ⟨rfl, rfl, by decide⟩

/-! ## Lemmas about `download` -/

/-- `String.data` distributes over append. -/
theorem data_append (s t : String) : (s ++ t).data = s.data ++ t.data := by
  cases s
  cases t
  rfl

/-- The Boolean suffix test agrees with the suffix relation. -/
theorem isSuffixOf_eq_true_iff {l₁ l₂ : List Char} :
    l₁.isSuffixOf l₂ = true ↔ l₁ <:+ l₂ := by
  rw [List.isSuffixOf, List.isPrefixOf_iff_prefix, List.reverse_prefix]

/-- `takeWhile` passes over a block whose elements all satisfy the
predicate. -/
theorem takeWhile_append_all {p : Char → Bool} :
    ∀ l₁ l₂ : List Char, (∀ c ∈ l₁, p c = true) →
      (l₁ ++ l₂).takeWhile p = l₁ ++ l₂.takeWhile p := by
  intro l₁
  induction l₁ with
  | nil => intro l₂ _; rfl
  | cons a rest ih =>
    intro l₂ h
    rw [List.cons_append, List.takeWhile_cons,
      if_pos (h a (List.mem_cons_self a rest)), ih l₂
      (fun c hc => h c (List.mem_cons_of_mem a hc))]
    rfl

/-- A suffix containing no slash survives taking the last URL segment. -/
theorem suffix_lastSegment {ext u : String} (h : ext.data <:+ u.data)
    (hx : ∀ c ∈ ext.data, (c == '/') = false) :
    ext.data <:+ (lastSegment u).data := by
  obtain ⟨t, ht⟩ := h
  show ext.data <:+ (u.data.reverse.takeWhile (fun c => !(c == '/'))).reverse
  rw [← ht, List.reverse_append,
    takeWhile_append_all _ _
      (fun c hc => by rw [Bool.not_eq_true', hx c (List.mem_reverse.1 hc)]),
    List.reverse_append, List.reverse_reverse]
  exact List.suffix_append _ _

/-- Prepending a directory to the last segment of a URL keeps any
slash-free suffix of the URL. -/
theorem endsWith_prepend_lastSegment (d u ext : String)
    (h : strEndsWith u ext = true)
    (hx : ∀ c ∈ ext.data, (c == '/') = false) :
    strEndsWith (d ++ lastSegment u) ext = true := by
  rw [strEndsWith, isSuffixOf_eq_true_iff] at h ⊢
  rw [data_append]
  exact (suffix_lastSegment h hx).trans (List.suffix_append _ _)

/-- No supported extension contains a slash. -/
theorem supported_formats_no_slash :
    ∀ ext ∈ SUPPORTED_FORMATS, ∀ c ∈ ext.data, (c == '/') = false := by
  decide

/-- The extension-detection loop succeeds whenever the file name ends
with some extension of the remaining list. -/
theorem findExtensionAux_isSome {f : String} :
    ∀ l : List String, (∃ ext ∈ l, strEndsWith f ext = true) →
      ∃ e, findExtensionAux f l = some e := by
  intro l
  induction l with
  | nil => rintro ⟨ext, hmem, -⟩; cases hmem
  | cons e rest ih =>
    rintro ⟨ext, hmem, hends⟩
    rw [findExtensionAux]
    by_cases he : strEndsWith f e = true
    · exact ⟨e, by rw [if_pos he]⟩
    · rcases List.mem_cons.1 hmem with rfl | hmem'
      · exact absurd hends he
      · rw [if_neg he]
        exact ih ⟨ext, hmem', hends⟩

/-- Any URL returned by `download_url` has a supported extension. -/
theorem downloadUrlAux_some_supported {arts : List Artifact} {u : String} :
    ∀ {ts : List String}, downloadUrlAux arts ts = some u →
      supportedUrl u = true := by
  intro ts
  induction ts with
  | nil => intro h; simp [downloadUrlAux] at h
  | cons t rest ih =>
    intro h
    rw [downloadUrlAux] at h
    cases hft : findByType arts t with
    | some v =>
      rw [hft] at h
      cases h
      obtain ⟨b, -, -, hbsup, hbu⟩ := findByType_eq_some hft
      rw [← hbu]
      exact hbsup
    | none =>
      rw [hft] at h
      exact ih h

/-- The file name used by `Package.download` for a selected URL ends in
a supported extension, so the extension search succeeds. -/
theorem findExtension_of_selected {arts : List Artifact} {u : String}
    (h : download_url arts = some u) (d : String) :
    ∃ e, findExtension (d ++ lastSegment u) = some e := by
  have hsup := downloadUrlAux_some_supported h
  obtain ⟨ext, hmem, hends⟩ := List.any_eq_true.1 hsup
  exact findExtensionAux_isSome SUPPORTED_FORMATS
    ⟨ext, hmem, endsWith_prepend_lastSegment d u ext hends
      (supported_formats_no_slash ext hmem)⟩

/-- Claim C10: whenever `Package.download_url` selects a URL, the
`Unexpected archive format` error branch of `Package.download` is
unreachable — the call returns normally for every environment. -/
theorem download_never_unexpected_format (env : DownloadEnv)
    (name ver u : String) (h : download_url env.arts = some u) :
    ∃ r, download env name ver = .ok r := by
  obtain ⟨e, he⟩ := findExtension_of_selected h
    (PYPI_SAVE_PATH ++ "/" ++ name ++ "-" ++ ver ++ "/")
  unfold download
  rw [h]
  by_cases h2 : (env.extractDirIsDir && env.hasExtractedSubdir) = true
  · simp only [h2, if_true]
    exact ⟨_, rfl⟩
  · simp only [Bool.eq_false_iff.2 h2, Bool.false_eq_true, if_false]
    by_cases h3 : env.fetchOk = true
    · simp only [h3, Bool.not_true, Bool.false_eq_true, if_false]
      have he' : findExtension (PYPI_SAVE_PATH ++ "/" ++ name ++ "-" ++ ver
          ++ "/" ++ lastSegment u) = some e := by
        rw [show PYPI_SAVE_PATH ++ "/" ++ name ++ "-" ++ ver ++ "/"
            ++ lastSegment u
          = (PYPI_SAVE_PATH ++ "/" ++ name ++ "-" ++ ver ++ "/")
            ++ lastSegment u from rfl] at he ⊢
        exact he
      rw [he']
      exact ⟨_, rfl⟩
    · simp only [Bool.eq_false_iff.2 h3, Bool.not_false, if_true]
      exact ⟨none, rfl⟩

/-- Environment for the claim C10 witness: a zip source distribution. -/
def c10Env : DownloadEnv :=
  { arts := [⟨"sdist", "https://files/q-2.1.zip", "2020-01-01"⟩],
    extractDirIsDir := false, hasExtractedSubdir := false,
    entriesAfterExtract := ["q-2.1"],
    isDirAfter := fun _ => true, fetchOk := true }

/-- Witness for claim C10: the download of the selected zip returns
normally. -/
theorem download_never_unexpected_format_witness :
    ∃ r, download c10Env "q" "2.1" = .ok r :=
  download_never_unexpected_format c10Env "q" "2.1"
    "https://files/q-2.1.zip" (by decide)

/-- Claim C9: when the artifact retrieval fails with an I/O error (a
missing remote file), `Package.download` returns `None` for that
version instead of raising. -/
theorem download_missing_file_returns_none (env : DownloadEnv)
    (name ver : String) (h1 : (download_url env.arts).isSome = true)
    (h2 : (env.extractDirIsDir && env.hasExtractedSubdir) = false)
    (h3 : env.fetchOk = false) :
    download env name ver = .ok none := by
  cases hd : download_url env.arts with
  | none => rw [hd] at h1; simp at h1
  | some url =>
    unfold download
    rw [hd]
    simp only [h2, Bool.false_eq_true, if_false, h3, Bool.not_false, if_true]

/-- Environment for the claim C9 witness: one source artifact whose
retrieval fails. -/
def c9Env : DownloadEnv :=
  { arts := [⟨"sdist", "https://files/p-1.0.tar.gz", "2020-01-01"⟩],
    extractDirIsDir := false, hasExtractedSubdir := false,
    entriesAfterExtract := [], isDirAfter := fun _ => false,
    fetchOk := false }

/-- Witness for claim C9: the failed retrieval yields `None`, not an
exception. -/
theorem download_missing_file_returns_none_witness :
    download c9Env "p" "1.0" = .ok none :=
  download_missing_file_returns_none c9Env "p" "1.0" (by decide) rfl rfl

/-- The single-directory loop with an already-found directory succeeds
iff no further entry is a directory. -/
theorem singleDirAux_some_eq {isDir : String → Bool} {dir : String} :
    ∀ (es : List String) (q : String),
      (es.map (fun e => dir ++ "/" ++ e)).filter isDir = [] →
      singleDirAux isDir dir (some q) es = some q := by
  intro es
  induction es with
  | nil => intro q _; rfl
  | cons e rest ih =>
    intro q h
    rw [List.map_cons, List.filter_cons] at h
    rw [singleDirAux]
    by_cases hd : isDir (dir ++ "/" ++ e) = true
    · rw [if_pos hd] at h
      cases h
    · rw [if_neg hd] at h
      simp only [hd, Bool.false_eq_true, if_false]
      exact ih q h

/-- The single-directory loop finds exactly the unique directory entry:
when the filtered entry paths are a singleton, it returns it. -/
theorem singleDirAux_none_eq {isDir : String → Bool} {dir : String} :
    ∀ (es : List String) (p : String),
      (es.map (fun e => dir ++ "/" ++ e)).filter isDir = [p] →
      singleDirAux isDir dir none es = some p := by
  intro es
  induction es with
  | nil => intro p h; cases h
  | cons e rest ih =>
    intro p h
    rw [List.map_cons, List.filter_cons] at h
    rw [singleDirAux]
    by_cases hd : isDir (dir ++ "/" ++ e) = true
    · rw [if_pos hd] at h
      injection h with hp hrest
      simp only [hd, if_true]
      rw [hp]
      exact singleDirAux_some_eq rest p hrest
    · rw [if_neg hd] at h
      simp only [hd, Bool.false_eq_true, if_false]
      exact ih p h

/-- Claim C6 (amended): the single-root-folder collapse of
`Package.download` applies exactly to artifacts whose download URL ends
in `.zip` (not to the other zip-like formats `.whl`/`.egg`, nor to
tar-based ones): for a `.zip` URL whose extraction leaves exactly one
directory entry, the returned root is that inner directory; for any
non-`.zip` URL the returned root is the target directory itself. -/
theorem download_zip_single_root (env : DownloadEnv) (name ver url : String)
    (h1 : download_url env.arts = some url)
    (h2 : (env.extractDirIsDir && env.hasExtractedSubdir) = false)
    (h3 : env.fetchOk = true) :
    (∀ p, strEndsWith url ".zip" = true →
      (env.entriesAfterExtract.map
        (fun e => PYPI_SAVE_PATH ++ "/" ++ name ++ "-" ++ ver ++ "/"
          ++ e)).filter env.isDirAfter = [p] →
      download env name ver = .ok (some p)) ∧
    (strEndsWith url ".zip" = false →
      download env name ver
        = .ok (some (PYPI_SAVE_PATH ++ "/" ++ name ++ "-" ++ ver))) := by
  obtain ⟨e, he⟩ := findExtension_of_selected h1
    (PYPI_SAVE_PATH ++ "/" ++ name ++ "-" ++ ver ++ "/")
  have he' : findExtension (PYPI_SAVE_PATH ++ "/" ++ name ++ "-" ++ ver
      ++ "/" ++ lastSegment url) = some e := he
  constructor
  · intro p hzip hfilter
    unfold download
    rw [h1]
    simp only [h2, Bool.false_eq_true, if_false, h3, Bool.not_true,
      if_false, he', hzip, if_true]
    rw [singleDirAux_none_eq env.entriesAfterExtract p hfilter]
  · intro hzip
    unfold download
    rw [h1]
    simp only [h2, Bool.false_eq_true, if_false, h3, Bool.not_true,
      if_false, he', hzip]

/-- Environment for the claim C6 witness: a `.zip` sdist extracting to a
single inner folder. -/
def c6Env : DownloadEnv :=
  { arts := [⟨"sdist", "https://files/pkg-1.0.zip", "2020-01-01"⟩],
    extractDirIsDir := false, hasExtractedSubdir := false,
    entriesAfterExtract := ["pkg-1.0"],
    isDirAfter := fun p => p == "/tmp/pypi/pkg-1.0/pkg-1.0",
    fetchOk := true }

/-- Witness for claim C6: the zip's single inner folder becomes the
effective extracted root. -/
theorem download_zip_single_root_witness :
    download c6Env "pkg" "1.0" = .ok (some "/tmp/pypi/pkg-1.0/pkg-1.0") :=
  (download_zip_single_root c6Env "pkg" "1.0" "https://files/pkg-1.0.zip"
    (by decide) rfl rfl).1 "/tmp/pypi/pkg-1.0/pkg-1.0" (by decide) (by decide)

/-- Environment for the claim C6 counterexample: a wheel (a zip-like
format) extracting to a single inner folder. -/
def c6WhlEnv : DownloadEnv :=
  { arts := [⟨"bdist_wheel", "https://files/pkg-1.0.whl", "2020-01-01"⟩],
    extractDirIsDir := false, hasExtractedSubdir := false,
    entriesAfterExtract := ["pkg-1.0"],
    isDirAfter := fun p => p == "/tmp/pypi/pkg-1.0/pkg-1.0",
    fetchOk := true }

/-- Counterexample for claim C6 as stated: a `.whl` artifact is
zip-like (it is extracted by the zip extractor), its extraction leaves a
single inner directory, yet `Package.download` returns the outer target
directory, not the inner one — the collapse checks for a `.zip` URL
suffix only. -/
theorem download_whl_not_collapsed_cex :
    download c6WhlEnv "pkg" "1.0" = .ok (some "/tmp/pypi/pkg-1.0") ∧
    download c6WhlEnv "pkg" "1.0" ≠ .ok (some "/tmp/pypi/pkg-1.0/pkg-1.0") :=
  ⟨rfl, by decide⟩

/-! ## Lemmas about the harvesting scheduler -/

/-- A cached key stays cached when entries are appended. -/
theorem cacheHas_append_left {c : Cache} {x : Cache} {k : String × String}
    (h : cacheHas c k = true) : cacheHas (c ++ x) k = true := by
  unfold cacheHas at h ⊢
  rw [List.any_append, h]
  rfl

/-- One package's loop never evicts a cached key. -/
theorem harvestPkg_mono {work : String → String → String → HarvestRow}
    {name : String} {k : String × String} :
    ∀ (rels : List (String × String)) (acc : Cache × List (String × String)),
      cacheHas acc.1 k = true →
      cacheHas (harvestPkg work acc name rels).1 k = true := by
  intro rels
  induction rels with
  | nil => intro acc h; exact h
  | cons r rest ih =>
    intro acc h
    rw [harvestPkg, List.foldl_cons]
    by_cases hc : cacheHas acc.1 (name, r.1) = true
    · rw [if_pos hc]
      exact ih acc h
    · rw [if_neg hc]
      exact ih _ (cacheHas_append_left h)

/-- After one package's loop, every one of its release keys is cached:
it either was already, or its unit of work was submitted and merged. -/
theorem harvestPkg_covers {work : String → String → String → HarvestRow}
    {name : String} :
    ∀ (rels : List (String × String)) (acc : Cache × List (String × String)),
      ∀ rel ∈ rels,
        cacheHas (harvestPkg work acc name rels).1 (name, rel.1) = true := by
  intro rels
  induction rels with
  | nil => intro acc rel h; cases h
  | cons r rest ih =>
    intro acc rel hrel
    rw [harvestPkg, List.foldl_cons]
    rcases List.mem_cons.1 hrel with rfl | hrel'
    · by_cases hc : cacheHas acc.1 (name, rel.1) = true
      · rw [if_pos hc]
        exact harvestPkg_mono rest acc hc
      · rw [if_neg hc]
        refine harvestPkg_mono rest _ ?_
        rw [cacheHas, List.any_append]
        have : cacheHas [((name, rel.1), work name rel.1 rel.2)]
            (name, rel.1) = true := by simp [cacheHas]
        rw [cacheHas] at this
        rw [this]
        exact Bool.or_true _
    · by_cases hc : cacheHas acc.1 (name, r.1) = true
      · rw [if_pos hc]
        exact ih acc rel hrel'
      · rw [if_neg hc]
        exact ih _ rel hrel'

/-- The whole pass never evicts a cached key. -/
theorem harvest_mono {work : String → String → String → HarvestRow}
    {k : String × String} :
    ∀ (reg : Registry) (acc : Cache × List (String × String)),
      cacheHas acc.1 k = true →
      cacheHas (reg.foldl
        (fun acc pkg => harvestPkg work acc pkg.1 pkg.2) acc).1 k = true := by
  intro reg
  induction reg with
  | nil => intro acc h; exact h
  | cons p rest ih =>
    intro acc h
    rw [List.foldl_cons]
    exact ih _ (harvestPkg_mono p.2 acc h)

/-- After a pass, every (name, version) key of the registry is cached. -/
theorem harvest_covers {work : String → String → String → HarvestRow} :
    ∀ (reg : Registry) (acc : Cache × List (String × String)),
      ∀ pkg ∈ reg, ∀ rel ∈ pkg.2,
        cacheHas (reg.foldl
          (fun acc pkg => harvestPkg work acc pkg.1 pkg.2) acc).1
          (pkg.1, rel.1) = true := by
  intro reg
  induction reg with
  | nil => intro acc pkg h; cases h
  | cons p rest ih =>
    intro acc pkg hpkg rel hrel
    rw [List.foldl_cons]
    rcases List.mem_cons.1 hpkg with rfl | hpkg'
    · exact harvest_mono rest _ (harvestPkg_covers pkg.2 acc rel hrel)
    · exact ih _ pkg hpkg' rel hrel

/-- One package's loop is the identity when all its keys are cached. -/
theorem harvestPkg_skip {work : String → String → String → HarvestRow}
    {name : String} :
    ∀ (rels : List (String × String)) (acc : Cache × List (String × String)),
      (∀ rel ∈ rels, cacheHas acc.1 (name, rel.1) = true) →
      harvestPkg work acc name rels = acc := by
  intro rels
  induction rels with
  | nil => intro acc _; rfl
  | cons r rest ih =>
    intro acc h
    rw [harvestPkg, List.foldl_cons,
      if_pos (h r (List.mem_cons_self r rest))]
    exact ih acc (fun rel hrel => h rel (List.mem_cons_of_mem r hrel))

/-- The pass is the identity when every registry key is cached. -/
theorem harvest_skip {work : String → String → String → HarvestRow} :
    ∀ (reg : Registry) (acc : Cache × List (String × String)),
      (∀ pkg ∈ reg, ∀ rel ∈ pkg.2, cacheHas acc.1 (pkg.1, rel.1) = true) →
      reg.foldl (fun acc pkg => harvestPkg work acc pkg.1 pkg.2) acc
        = acc := by
  intro reg
  induction reg with
  | nil => intro acc _; rfl
  | cons p rest ih =>
    intro acc h
    rw [List.foldl_cons,
      harvestPkg_skip p.2 acc (h p (List.mem_cons_self p rest))]
    exact ih acc (fun pkg hpkg => h pkg (List.mem_cons_of_mem p hpkg))

/-- Claim C8: running the harvesting pass a second time over an
unchanged registry, starting from the cache produced by the first run,
yields the identical cache and submits no unit of work at all — in
particular no download is issued for any (name, version) pair already
present in the cache loaded at startup. -/
theorem harvest_second_run_identity
    (work : String → String → String → HarvestRow)
    (cache0 : Cache) (reg : Registry) :
    harvest work (harvest work cache0 reg).1 reg
      = ((harvest work cache0 reg).1, []) := by
  unfold harvest
  exact harvest_skip reg _
    (fun pkg hpkg rel hrel => harvest_covers reg (cache0, []) pkg hpkg rel hrel)

end StEco
